import Mathlib

/-!
Verification development for the room view-model of this repository
(`src/domain/session/room/RoomViewModel.js`).

The source file under verification is `RoomViewModel.js`.  Its collaborators
(`PickMapObservableValue`, the `ViewModel`/tracking base, the clock timeout)
are not part of the provided sources; where a claim depends on them they are
modelled from the specification (sections 4.1 to 4.4), and each such
definition says so in its doc comment.  Everything else is translated
directly from `RoomViewModel.js`.
-/

namespace RoomVM

/-- A call candidate as seen by the room view-model: each candidate exposes
`id`, `roomId` and `hasJoined` (spec section 6, and the filter in
`_setupCallViewModel`).  Identifiers are modelled as naturals. -/
structure Call where
  id : Nat
  roomId : Nat
  hasJoined : Bool
deriving DecidableEq, Repr

/-- The filter predicate passed to `calls.filterValues` in
`_setupCallViewModel`: `c.roomId === this._room.id && c.hasJoined`. -/
def callFilter (roomId : Nat) (c : Call) : Bool :=
  c.roomId == roomId && c.hasJoined

/-- Mutation events on the externally owned keyed call collection
(spec section 4.3): insertion, removal, and in-place update of the value at
a key. -/
inductive MapEvent where
  | ins : Nat → Call → MapEvent
  | del : Nat → MapEvent
  | upd : Nat → Call → MapEvent
deriving DecidableEq, Repr

/-- Insert a keyed entry into an association list kept sorted by strictly
increasing key, replacing an existing entry with the same key. -/
def insertSorted (k : Nat) (v : Call) : List (Nat × Call) → List (Nat × Call)
  | [] => [(k, v)]
  | (k2, v2) :: rest =>
    if k < k2 then (k, v) :: (k2, v2) :: rest
    else if k = k2 then (k, v) :: rest
    else (k2, v2) :: insertSorted k v rest

/-- Remove the entry with the given key from an association list. -/
def eraseKey (k : Nat) : List (Nat × Call) → List (Nat × Call)
  | [] => []
  | (k2, v2) :: rest => if k = k2 then rest else (k2, v2) :: eraseKey k rest

/-- Ground-truth content of the keyed collection after one mutation event. -/
def applyEvent (m : List (Nat × Call)) : MapEvent → List (Nat × Call)
  | .ins k v => insertSorted k v m
  | .upd k v => insertSorted k v m
  | .del k => eraseKey k m

/-- Ground-truth content of the keyed collection after a sequence of
mutation events, starting from the empty collection. -/
def applyEvents (es : List MapEvent) : List (Nat × Call) :=
  es.foldl applyEvent []

/-- The entry with the minimum key of an association list (a linear scan),
or `none` when the list is empty. -/
def minKeyEntry : List (Nat × Call) → Option (Nat × Call)
  | [] => none
  | e :: rest =>
    match minKeyEntry rest with
    | none => some e
    | some m => if e.1 ≤ m.1 then some e else some m

/-- Modelled from the spec: the state of `PickMapObservableValue`
(section 4.3), whose source is not among the provided files.  It maintains
the working set of currently visible (filtered) entries and the currently
picked entry. -/
structure PickState where
  visible : List (Nat × Call)
  pick : Option (Nat × Call)
deriving DecidableEq, Repr

/-- Modelled from the spec: removal handling of `PickMapObservableValue`
(section 4.3).  The entry leaves the working set; if it was the pick, the
pick is recomputed as the minimum key over the remaining working set. -/
def pickRemove (k : Nat) (st : PickState) : PickState :=
  let visible2 := eraseKey k st.visible
  { visible := visible2
    pick :=
      match st.pick with
      | some p => if p.1 = k then minKeyEntry visible2 else st.pick
      | none => none }

/-- Modelled from the spec: insertion handling of `PickMapObservableValue`
(section 4.3).  An entry passing the filter joins the working set and
becomes the pick when its key is not larger than the current pick's key (in
particular when there is no current pick); an entry failing the filter is
treated as a removal (covers updates that start failing the predicate). -/
def pickInsert (pred : Call → Bool) (k : Nat) (v : Call) (st : PickState) : PickState :=
  if pred v then
    { visible := insertSorted k v st.visible
      pick :=
        match st.pick with
        | none => some (k, v)
        | some p => if k ≤ p.1 then some (k, v) else st.pick }
  else
    pickRemove k st

/-- Modelled from the spec: one synchronous re-evaluation step of
`PickMapObservableValue` on a collection event (section 4.3). -/
def pickStep (pred : Call → Bool) (st : PickState) : MapEvent → PickState
  | .ins k v => pickInsert pred k v st
  | .upd k v => pickInsert pred k v st
  | .del k => pickRemove k st

/-- Modelled from the spec: the pick state after a sequence of collection
events, starting from the empty collection. -/
def runPick (pred : Call → Bool) (es : List MapEvent) : PickState :=
  es.foldl (pickStep pred) ⟨[], none⟩

/-- Association lists with strictly increasing keys. -/
abbrev SortedKeys (l : List (Nat × Call)) : Prop :=
  l.Pairwise (fun a b => a.1 < b.1)

theorem eraseKey_sublist (k : Nat) (l : List (Nat × Call)) : List.Sublist (eraseKey k l) l := by
  induction l with
  | nil => simp [eraseKey]
  | cons hd tl ih =>
    obtain ⟨k2, v2⟩ := hd
    by_cases h : k = k2
    · simp only [eraseKey, if_pos h]
      exact List.sublist_cons_self _ _
    · simpa [eraseKey, h] using ih.cons₂ (k2, v2)

theorem sortedKeys_eraseKey (k : Nat) (l : List (Nat × Call)) (hs : SortedKeys l) :
    SortedKeys (eraseKey k l) :=
  hs.sublist (eraseKey_sublist k l)

theorem mem_insertSorted {x : Nat × Call} (k : Nat) (v : Call) (l : List (Nat × Call))
    (hx : x ∈ insertSorted k v l) : x = (k, v) ∨ x ∈ l := by
  induction l with
  | nil => simpa [insertSorted] using hx
  | cons hd tl ih =>
    obtain ⟨k2, v2⟩ := hd
    rcases Nat.lt_trichotomy k k2 with h | h | h
    · simp only [insertSorted, if_pos h] at hx
      rcases List.mem_cons.mp hx with rfl | hx2
      · exact Or.inl rfl
      · exact Or.inr hx2
    · subst h
      simp only [insertSorted, if_neg (Nat.lt_irrefl k), if_pos rfl, eq_self_iff_true, if_true] at hx
      rcases List.mem_cons.mp hx with rfl | hx2
      · exact Or.inl rfl
      · exact Or.inr (List.mem_cons_of_mem _ hx2)
    · have h1 : ¬ k < k2 := Nat.lt_asymm h
      have h2 : k ≠ k2 := Nat.ne_of_gt h
      simp only [insertSorted, if_neg h1, if_neg h2] at hx
      rcases List.mem_cons.mp hx with rfl | hx2
      · exact Or.inr (List.mem_cons_self _ _)
      · rcases ih hx2 with h4 | h4
        · exact Or.inl h4
        · exact Or.inr (List.mem_cons_of_mem _ h4)

theorem sortedKeys_insertSorted (k : Nat) (v : Call) (l : List (Nat × Call))
    (hs : SortedKeys l) : SortedKeys (insertSorted k v l) := by
  induction l with
  | nil => simp [insertSorted]
  | cons hd tl ih =>
    obtain ⟨k2, v2⟩ := hd
    obtain ⟨hb, ht⟩ := List.pairwise_cons.mp hs
    rcases Nat.lt_trichotomy k k2 with h | h | h
    · simp only [insertSorted, if_pos h]
      refine List.Pairwise.cons ?_ (List.Pairwise.cons hb ht)
      intro b hbmem
      rcases List.mem_cons.mp hbmem with rfl | hbtl
      · exact h
      · exact Nat.lt_trans h (hb b hbtl)
    · subst h
      simp only [insertSorted, if_neg (Nat.lt_irrefl k), if_pos rfl, eq_self_iff_true, if_true]
      exact List.Pairwise.cons hb ht
    · have h1 : ¬ k < k2 := Nat.lt_asymm h
      have h2 : k ≠ k2 := Nat.ne_of_gt h
      simp only [insertSorted, if_neg h1, if_neg h2]
      refine List.Pairwise.cons ?_ (ih ht)
      intro b hbmem
      rcases mem_insertSorted k v tl hbmem with rfl | hbtl
      · exact h
      · exact hb b hbtl

theorem insertSorted_eq_cons (k : Nat) (v : Call) (l : List (Nat × Call))
    (hlt : ∀ x ∈ l, k < x.1) : insertSorted k v l = (k, v) :: l := by
  cases l with
  | nil => rfl
  | cons hd tl =>
    obtain ⟨k2, v2⟩ := hd
    simp only [insertSorted, if_pos (hlt (k2, v2) (List.mem_cons_self _ _))]

theorem eraseKey_of_not_mem (k : Nat) (l : List (Nat × Call))
    (hne : ∀ x ∈ l, x.1 ≠ k) : eraseKey k l = l := by
  induction l with
  | nil => rfl
  | cons hd tl ih =>
    obtain ⟨k2, v2⟩ := hd
    have h2 : k ≠ k2 := fun h => (hne (k2, v2) (List.mem_cons_self _ _)) h.symm
    simp only [eraseKey, if_neg h2]
    rw [ih (fun x hx => hne x (List.mem_cons_of_mem _ hx))]

theorem minKeyEntry_eq_head (l : List (Nat × Call)) (hs : SortedKeys l) :
    minKeyEntry l = l.head? := by
  induction l with
  | nil => rfl
  | cons hd tl ih =>
    obtain ⟨hb, ht⟩ := List.pairwise_cons.mp hs
    simp only [minKeyEntry]
    rw [ih ht]
    cases tl with
    | nil => rfl
    | cons hd2 tl2 =>
      simp only [List.head?]
      rw [if_pos (Nat.le_of_lt (hb hd2 (List.mem_cons_self _ _)))]

theorem sortedKeys_filter (p : Nat × Call → Bool) (l : List (Nat × Call))
    (hs : SortedKeys l) : SortedKeys (l.filter p) :=
  hs.sublist (List.filter_sublist l)

theorem filter_insertSorted_pos (p : Nat × Call → Bool) (k : Nat) (v : Call)
    (l : List (Nat × Call)) (hs : SortedKeys l) (hp : p (k, v) = true) :
    (insertSorted k v l).filter p = insertSorted k v (l.filter p) := by
  induction l with
  | nil => simp [insertSorted, List.filter_cons, hp]
  | cons hd tl ih =>
    obtain ⟨k2, v2⟩ := hd
    obtain ⟨hb, ht⟩ := List.pairwise_cons.mp hs
    rcases Nat.lt_trichotomy k k2 with h | h | h
    · have hlt : ∀ x ∈ List.filter p ((k2, v2) :: tl), k < x.1 := by
        intro x hx
        have hx2 := List.mem_of_mem_filter hx
        rcases List.mem_cons.mp hx2 with rfl | hx3
        · exact h
        · exact Nat.lt_trans h (hb x hx3)
      rw [insertSorted_eq_cons k v _ hlt]
      simp only [insertSorted, if_pos h]
      simp [List.filter_cons, hp]
    · subst h
      simp only [insertSorted, if_neg (Nat.lt_irrefl k), if_pos rfl, eq_self_iff_true, if_true]
      have e1 : List.filter p ((k, v) :: tl) = (k, v) :: List.filter p tl := by
        simp [List.filter_cons, hp]
      rw [e1]
      by_cases hp2 : p (k, v2) = true
      · have e2 : List.filter p ((k, v2) :: tl) = (k, v2) :: List.filter p tl := by
          simp [List.filter_cons, hp2]
        rw [e2]
        simp only [insertSorted, if_neg (Nat.lt_irrefl k), if_pos rfl, eq_self_iff_true, if_true]
      · have e2 : List.filter p ((k, v2) :: tl) = List.filter p tl := by
          simp [List.filter_cons, hp2]
        rw [e2, insertSorted_eq_cons k v _
          (fun x hx => hb x (List.mem_of_mem_filter hx))]
    · have h1 : ¬ k < k2 := Nat.lt_asymm h
      have h2 : k ≠ k2 := Nat.ne_of_gt h
      simp only [insertSorted, if_neg h1, if_neg h2]
      by_cases hp2 : p (k2, v2) = true
      · have e1 : List.filter p ((k2, v2) :: insertSorted k v tl)
            = (k2, v2) :: List.filter p (insertSorted k v tl) := by
          simp [List.filter_cons, hp2]
        have e2 : List.filter p ((k2, v2) :: tl) = (k2, v2) :: List.filter p tl := by
          simp [List.filter_cons, hp2]
        rw [e1, e2, ih ht]
        simp only [insertSorted, if_neg h1, if_neg h2]
      · have e1 : List.filter p ((k2, v2) :: insertSorted k v tl)
            = List.filter p (insertSorted k v tl) := by
          simp [List.filter_cons, hp2]
        have e2 : List.filter p ((k2, v2) :: tl) = List.filter p tl := by
          simp [List.filter_cons, hp2]
        rw [e1, e2, ih ht]

theorem filter_insertSorted_neg (p : Nat × Call → Bool) (k : Nat) (v : Call)
    (l : List (Nat × Call)) (hs : SortedKeys l) (hp : p (k, v) = false) :
    (insertSorted k v l).filter p = eraseKey k (l.filter p) := by
  induction l with
  | nil => simp [insertSorted, List.filter_cons, hp, eraseKey]
  | cons hd tl ih =>
    obtain ⟨k2, v2⟩ := hd
    obtain ⟨hb, ht⟩ := List.pairwise_cons.mp hs
    rcases Nat.lt_trichotomy k k2 with h | h | h
    · simp only [insertSorted, if_pos h]
      have e1 : List.filter p ((k, v) :: (k2, v2) :: tl)
          = List.filter p ((k2, v2) :: tl) := by
        simp [List.filter_cons, hp]
      rw [e1, eraseKey_of_not_mem]
      intro x hx
      have hx2 := List.mem_of_mem_filter hx
      rcases List.mem_cons.mp hx2 with rfl | hx3
      · exact Ne.symm (Nat.ne_of_lt h)
      · exact Ne.symm (Nat.ne_of_lt (Nat.lt_trans h (hb x hx3)))
    · subst h
      simp only [insertSorted, if_neg (Nat.lt_irrefl k), if_pos rfl, eq_self_iff_true, if_true]
      have e1 : List.filter p ((k, v) :: tl) = List.filter p tl := by
        simp [List.filter_cons, hp]
      rw [e1]
      by_cases hp2 : p (k, v2) = true
      · have e2 : List.filter p ((k, v2) :: tl) = (k, v2) :: List.filter p tl := by
          simp [List.filter_cons, hp2]
        rw [e2]
        simp [eraseKey]
      · have e2 : List.filter p ((k, v2) :: tl) = List.filter p tl := by
          simp [List.filter_cons, hp2]
        rw [e2, eraseKey_of_not_mem]
        intro x hx
        exact Ne.symm (Nat.ne_of_lt (hb x (List.mem_of_mem_filter hx)))
    · have h1 : ¬ k < k2 := Nat.lt_asymm h
      have h2 : k ≠ k2 := Nat.ne_of_gt h
      simp only [insertSorted, if_neg h1, if_neg h2]
      by_cases hp2 : p (k2, v2) = true
      · have e1 : List.filter p ((k2, v2) :: insertSorted k v tl)
            = (k2, v2) :: List.filter p (insertSorted k v tl) := by
          simp [List.filter_cons, hp2]
        have e2 : List.filter p ((k2, v2) :: tl) = (k2, v2) :: List.filter p tl := by
          simp [List.filter_cons, hp2]
        rw [e1, e2, ih ht]
        simp only [eraseKey, if_neg h2]
      · have e1 : List.filter p ((k2, v2) :: insertSorted k v tl)
            = List.filter p (insertSorted k v tl) := by
          simp [List.filter_cons, hp2]
        have e2 : List.filter p ((k2, v2) :: tl) = List.filter p tl := by
          simp [List.filter_cons, hp2]
        rw [e1, e2, ih ht]

theorem filter_eraseKey (p : Nat × Call → Bool) (k : Nat) (l : List (Nat × Call))
    (hs : SortedKeys l) : (eraseKey k l).filter p = eraseKey k (l.filter p) := by
  induction l with
  | nil => rfl
  | cons hd tl ih =>
    obtain ⟨k2, v2⟩ := hd
    obtain ⟨hb, ht⟩ := List.pairwise_cons.mp hs
    by_cases h : k = k2
    · subst h
      simp only [eraseKey, if_pos rfl, eq_self_iff_true, if_true]
      by_cases hp2 : p (k, v2) = true
      · have e2 : List.filter p ((k, v2) :: tl) = (k, v2) :: List.filter p tl := by
          simp [List.filter_cons, hp2]
        rw [e2]
        simp only [eraseKey, if_pos rfl, eq_self_iff_true, if_true]
      · have e2 : List.filter p ((k, v2) :: tl) = List.filter p tl := by
          simp [List.filter_cons, hp2]
        rw [e2, eraseKey_of_not_mem]
        intro x hx
        exact Ne.symm (Nat.ne_of_lt (hb x (List.mem_of_mem_filter hx)))
    · simp only [eraseKey, if_neg h]
      by_cases hp2 : p (k2, v2) = true
      · have e1 : List.filter p ((k2, v2) :: eraseKey k tl)
            = (k2, v2) :: List.filter p (eraseKey k tl) := by
          simp [List.filter_cons, hp2]
        have e2 : List.filter p ((k2, v2) :: tl) = (k2, v2) :: List.filter p tl := by
          simp [List.filter_cons, hp2]
        rw [e1, e2, ih ht]
        simp only [eraseKey, if_neg h]
      · have e1 : List.filter p ((k2, v2) :: eraseKey k tl)
            = List.filter p (eraseKey k tl) := by
          simp [List.filter_cons, hp2]
        have e2 : List.filter p ((k2, v2) :: tl) = List.filter p tl := by
          simp [List.filter_cons, hp2]
        rw [e1, e2, ih ht]

/-- The invariant connecting the ground-truth collection content and the
pick state: the truth is a sorted association list, the working set is
exactly the filtered truth, and the pick is the head (minimum key) of the
working set. -/
def PickInv (pred : Call → Bool) (truth : List (Nat × Call)) (st : PickState) : Prop :=
  SortedKeys truth ∧
  st.visible = truth.filter (fun e => pred e.2) ∧
  st.pick = st.visible.head?

theorem pickRemove_head (k : Nat) (st : PickState) (hsvis : SortedKeys st.visible)
    (hpick : st.pick = st.visible.head?) :
    (pickRemove k st).pick = (eraseKey k st.visible).head? := by
  simp only [pickRemove]
  cases hv : st.visible with
  | nil =>
    rw [hv] at hpick
    simp only [List.head?] at hpick
    rw [hpick]
    rfl
  | cons q rest =>
    obtain ⟨qk, qv⟩ := q
    rw [hv] at hpick hsvis
    simp only [List.head?] at hpick
    rw [hpick]
    by_cases hk : qk = k
    · subst hk
      simp only [eraseKey, if_pos rfl, if_pos]
      exact minKeyEntry_eq_head rest (List.pairwise_cons.mp hsvis).2
    · have hk2 : ¬ k = qk := fun h => hk h.symm
      simp only [eraseKey, if_neg hk2, if_neg hk]
      rfl

theorem pickRemove_inv (pred : Call → Bool) (k : Nat) (truth : List (Nat × Call))
    (st : PickState) (h : PickInv pred truth st) :
    PickInv pred (eraseKey k truth) (pickRemove k st) := by
  obtain ⟨hsort, hvis, hpick⟩ := h
  have hsvis : SortedKeys st.visible := hvis ▸ sortedKeys_filter _ truth hsort
  refine ⟨sortedKeys_eraseKey k truth hsort, ?_, ?_⟩
  · show eraseKey k st.visible = _
    rw [hvis, ← filter_eraseKey _ k truth hsort]
  · rw [pickRemove_head k st hsvis hpick]
    rfl

theorem pickInsert_inv (pred : Call → Bool) (k : Nat) (v : Call)
    (truth : List (Nat × Call)) (st : PickState) (h : PickInv pred truth st) :
    PickInv pred (insertSorted k v truth) (pickInsert pred k v st) := by
  obtain ⟨hsort, hvis, hpick⟩ := h
  have hsvis : SortedKeys st.visible := hvis ▸ sortedKeys_filter _ truth hsort
  by_cases hp : pred v = true
  · simp only [pickInsert, if_pos hp]
    refine ⟨sortedKeys_insertSorted k v truth hsort, ?_, ?_⟩
    · rw [hvis, ← filter_insertSorted_pos _ k v truth hsort hp]
    · cases hv : st.visible with
      | nil =>
        rw [hv] at hpick
        simp only [List.head?] at hpick
        rw [hpick]
        rfl
      | cons q rest =>
        obtain ⟨qk, qv⟩ := q
        rw [hv] at hpick
        simp only [List.head?] at hpick
        rw [hpick]
        rcases Nat.lt_trichotomy k qk with hq | hq | hq
        · simp only [if_pos (Nat.le_of_lt hq), insertSorted, if_pos hq]
          rfl
        · subst hq
          simp only [if_pos (Nat.le_refl k), insertSorted, if_neg (Nat.lt_irrefl k),
            if_pos rfl]
          rfl
        · simp only [if_neg (Nat.not_le_of_lt hq), insertSorted,
            if_neg (Nat.lt_asymm hq), if_neg (Nat.ne_of_gt hq)]
          rfl
  · have hp2 : pred v = false := Bool.eq_false_iff.mpr hp
    simp only [pickInsert, if_neg hp]
    refine ⟨sortedKeys_insertSorted k v truth hsort, ?_, ?_⟩
    · show eraseKey k st.visible = _
      rw [hvis, ← filter_insertSorted_neg _ k v truth hsort (by simpa using hp2)]
    · rw [pickRemove_head k st hsvis hpick]
      rfl

theorem pickStep_inv (pred : Call → Bool) (truth : List (Nat × Call)) (st : PickState)
    (ev : MapEvent) (h : PickInv pred truth st) :
    PickInv pred (applyEvent truth ev) (pickStep pred st ev) := by
  cases ev with
  | ins k v => exact pickInsert_inv pred k v truth st h
  | upd k v => exact pickInsert_inv pred k v truth st h
  | del k => exact pickRemove_inv pred k truth st h

theorem runPick_inv (pred : Call → Bool) (es : List MapEvent) :
    ∀ truth st, PickInv pred truth st →
      PickInv pred (es.foldl applyEvent truth) (es.foldl (pickStep pred) st) := by
  induction es with
  | nil => intro truth st h; exact h
  | cons e rest ih =>
    intro truth st h
    exact ih _ _ (pickStep_inv pred truth st e h)

/-- C1: for every sequence of insert/remove/update events on the call
collection, the value held by the pick observable of `_setupCallViewModel`
equals the call with the minimum key among the calls currently satisfying
the filter predicate (`call.roomId` equals this room's id and
`call.hasJoined`), and is absent exactly when no call satisfies it; this
holds after every mutation sequence, hence after every mutation. -/
theorem picked_call_is_min_key (roomId : Nat) (es : List MapEvent) :
    (runPick (callFilter roomId) es).pick
      = minKeyEntry ((applyEvents es).filter (fun e => callFilter roomId e.2))
    ∧ ((runPick (callFilter roomId) es).pick = none
        ↔ (applyEvents es).filter (fun e => callFilter roomId e.2) = []) := by
  have h0 : PickInv (callFilter roomId) [] ⟨[], none⟩ := ⟨List.Pairwise.nil, rfl, rfl⟩
  have h := runPick_inv (callFilter roomId) es [] ⟨[], none⟩ h0
  obtain ⟨hsort, hvis, hpick⟩ := h
  have hsf : SortedKeys
      ((es.foldl applyEvent []).filter (fun e => callFilter roomId e.2)) :=
    sortedKeys_filter _ _ hsort
  constructor
  · show (es.foldl (pickStep (callFilter roomId)) ⟨[], none⟩).pick = _
    rw [hpick, hvis]
    exact (minKeyEntry_eq_head _ hsf).symm
  · show (es.foldl (pickStep (callFilter roomId)) ⟨[], none⟩).pick = none ↔ _
    rw [hpick, hvis]
    exact List.head?_eq_none_iff

example :
    (runPick (callFilter 1)
      [.ins 5 ⟨10, 1, true⟩, .ins 2 ⟨11, 1, true⟩]).pick = some (2, ⟨11, 1, true⟩) := by
  decide

example :
    (runPick (callFilter 1)
      [.ins 5 ⟨10, 1, true⟩, .ins 2 ⟨11, 1, true⟩, .del 2]).pick
      = some (5, ⟨10, 1, true⟩) := by
  decide

example :
    (runPick (callFilter 1)
      [.ins 5 ⟨10, 1, true⟩, .ins 2 ⟨11, 1, true⟩, .del 2, .del 5]).pick = none := by
  decide

example :
    (runPick (callFilter 1)
      [.ins 5 ⟨10, 1, true⟩, .ins 2 ⟨11, 2, true⟩, .ins 3 ⟨12, 1, false⟩]).pick
      = some (5, ⟨10, 1, true⟩) := by
  decide

example :
    (runPick (callFilter 1)
      [.ins 5 ⟨10, 1, true⟩, .upd 5 ⟨10, 1, false⟩]).pick = none := by
  decide

/-- The room view-model's call slot: `some (inst, callId)` when a call
sub-view-model instance `inst` for the call with id `callId` is held in
`this._callViewModel`, `none` otherwise.  `nextInst` numbers sub-view-model
instances in creation order. -/
structure CVMState where
  callVM : Option (Nat × Nat)
  nextInst : Nat
deriving DecidableEq, Repr

/-- Observable side effects of the subscription callback in
`_setupCallViewModel`: disposing a tracked call sub-view-model instance,
creating (and tracking) a new one, and emitting the `callViewModel`
change. -/
inductive VMAction where
  | disposeVM : Nat → VMAction
  | createVM : Nat → VMAction
  | emitChange : VMAction
deriving DecidableEq, Repr

/-- The subscription callback of `_setupCallViewModel` (lines 59-68 of
`RoomViewModel.js`): if the delivered call has the id of the current call
sub-view-model, return without any effect; otherwise dispose the tracked
sub-view-model (if any), then create and track a new one when a call was
delivered, then emit the change.  Returns the new state and the ordered
list of performed effects. -/
def callCallback (st : CVMState) (call : Option Call) : CVMState × List VMAction :=
  match call, st.callVM with
  | some c, some iv =>
    if c.id = iv.2 then (st, [])
    else
      ({ callVM := some (st.nextInst, c.id), nextInst := st.nextInst + 1 },
        [.disposeVM iv.1, .createVM st.nextInst, .emitChange])
  | some c, none =>
      ({ callVM := some (st.nextInst, c.id), nextInst := st.nextInst + 1 },
        [.createVM st.nextInst, .emitChange])
  | none, some iv =>
      ({ callVM := none, nextInst := st.nextInst }, [.disposeVM iv.1, .emitChange])
  | none, none => (st, [.emitChange])

/-- The effect trace of delivering a sequence of picked values to the
callback, starting in state `st`. -/
def runFrom (st : CVMState) : List (Option Call) → List VMAction
  | [] => []
  | c :: rest =>
    let out := callCallback st c
    out.2 ++ runFrom out.1 rest

/-- The set of call sub-view-model instances alive after replaying a list
of effects over the initially alive instances: `createVM` brings an
instance to life, `disposeVM` removes it. -/
def aliveAfter (init : List Nat) (acts : List VMAction) : List Nat :=
  acts.foldl
    (fun l a =>
      match a with
      | .createVM n => n :: l
      | .disposeVM n => l.erase n
      | .emitChange => l)
    init

/-- The instances alive according to the callback state: the held call
sub-view-model, if any. -/
def stateAlive (st : CVMState) : List Nat :=
  match st.callVM with
  | some iv => [iv.1]
  | none => []

theorem aliveAfter_append (init : List Nat) (xs ys : List VMAction) :
    aliveAfter init (xs ++ ys) = aliveAfter (aliveAfter init xs) ys :=
  List.foldl_append _ _ _ _

theorem callCallback_alive (st : CVMState) (c : Option Call) :
    aliveAfter (stateAlive st) (callCallback st c).2
      = stateAlive (callCallback st c).1
    ∧ ∀ k, (aliveAfter (stateAlive st) ((callCallback st c).2.take k)).length ≤ 1 := by
  match c, hvm : st.callVM with
  | some cc, some iv =>
    by_cases hid : cc.id = iv.2
    · simp only [callCallback, hvm, if_pos hid]
      refine ⟨rfl, ?_⟩
      intro k
      simp [aliveAfter, stateAlive, hvm]
    · simp only [callCallback, hvm, if_neg hid]
      constructor
      · simp [aliveAfter, stateAlive, hvm]
      · intro k
        match k with
        | 0 => simp [aliveAfter, stateAlive, hvm]
        | 1 => simp [aliveAfter, stateAlive, hvm]
        | 2 => simp [aliveAfter, stateAlive, hvm]
        | (n + 3) => simp [aliveAfter, stateAlive, hvm, List.take_of_length_le]
  | some cc, none =>
    simp only [callCallback, hvm]
    constructor
    · simp [aliveAfter, stateAlive, hvm]
    · intro k
      match k with
      | 0 => simp [aliveAfter, stateAlive, hvm]
      | 1 => simp [aliveAfter, stateAlive, hvm]
      | (n + 2) => simp [aliveAfter, stateAlive, hvm, List.take_of_length_le]
  | none, some iv =>
    simp only [callCallback, hvm]
    constructor
    · simp [aliveAfter, stateAlive, hvm]
    · intro k
      match k with
      | 0 => simp [aliveAfter, stateAlive, hvm]
      | 1 => simp [aliveAfter, stateAlive, hvm]
      | (n + 2) => simp [aliveAfter, stateAlive, hvm, List.take_of_length_le]
  | none, none =>
    simp only [callCallback, hvm]
    refine ⟨rfl, ?_⟩
    intro k
    match k with
    | 0 => simp [aliveAfter, stateAlive, hvm]
    | (n + 1) => simp [aliveAfter, stateAlive, hvm, List.take_of_length_le]

theorem runFrom_alive (calls : List (Option Call)) :
    ∀ st n, (aliveAfter (stateAlive st) ((runFrom st calls).take n)).length ≤ 1 := by
  induction calls with
  | nil =>
    intro st n
    simp only [runFrom, List.take_nil]
    cases h : st.callVM <;> simp [aliveAfter, stateAlive, h]
  | cons c rest ih =>
    intro st n
    obtain ⟨hfull, hpre⟩ := callCallback_alive st c
    simp only [runFrom]
    rw [List.take_append_eq_append_take, aliveAfter_append]
    by_cases hn : n ≤ (callCallback st c).2.length
    · have h0 : n - (callCallback st c).2.length = 0 := Nat.sub_eq_zero_of_le hn
      rw [h0, List.take_zero]
      simpa [aliveAfter] using hpre n
    · have hlen : (callCallback st c).2.length ≤ n := Nat.le_of_not_le hn
      rw [List.take_of_length_le hlen, hfull]
      exact ih _ _

/-- C2: for every sequence of values delivered by the pick observable to the
subscription callback of `_setupCallViewModel`, at most one call
sub-view-model is alive at every point of the resulting effect trace (the
previously active one is disposed before a new one is created, so no two
call sub-view-models are ever alive simultaneously, even transiently). -/
theorem at_most_one_call_viewmodel (calls : List (Option Call)) (n : Nat) :
    (aliveAfter [] ((runFrom ⟨none, 0⟩ calls).take n)).length ≤ 1 :=
  runFrom_alive calls ⟨none, 0⟩ n

example :
    runFrom ⟨none, 0⟩ [some ⟨3, 1, true⟩, some ⟨4, 1, true⟩, none]
      = [.createVM 0, .emitChange, .disposeVM 0, .createVM 1, .emitChange,
         .disposeVM 1, .emitChange] := by
  decide

/-- C3: if the pick observable delivers a call whose id equals the id of the
currently active call sub-view-model, the subscription callback of
`_setupCallViewModel` performs no disposal, no creation and no change
emission, and leaves the state exactly as it was. -/
theorem same_call_id_noop (st : CVMState) (c : Call) (iv : Nat × Nat)
    (h : st.callVM = some iv) (hid : c.id = iv.2) :
    callCallback st (some c) = (st, []) := by
  simp only [callCallback, h, if_pos hid]

/-- Witness for C3 at a concrete state and call. -/
theorem same_call_id_noop_witness :
    callCallback ⟨some (7, 3), 8⟩ (some ⟨3, 1, true⟩) = (⟨some (7, 3), 8⟩, []) :=
  same_call_id_noop ⟨some (7, 3), 8⟩ ⟨3, 1, true⟩ (7, 3) rfl rfl

/-- A JavaScript error, identified by its `name` (the code only inspects
`err.name`). -/
structure JsError where
  name : String
deriving DecidableEq, Repr

/-- Outcome of the body of `_clearUnreadAfterDelay` after the timeout has
been created (lines 102-110 of `RoomViewModel.js`): whether
`this._room.clearUnread()` was invoked and whether the timeout reference
was set back to null, or the re-raised error.  `elapsedRes` is the outcome
of awaiting `this._clearUnreadTimout.elapsed()` and `clearRes` the outcome
of awaiting `this._room.clearUnread()`. -/
structure ClearOutcome where
  clearInvoked : Bool
  refNulled : Bool
  errorsReported : Nat
deriving DecidableEq, Repr

/-- The try/catch of `_clearUnreadAfterDelay`: both awaits run inside one
`try`; the `catch` swallows errors named `AbortError` and re-raises every
other error.  The function contains no `reportError` call, so
`errorsReported` is 0 on every path. -/
def clearUnreadBody (elapsedRes : Except JsError Unit) (clearRes : Except JsError Unit) :
    Except JsError ClearOutcome :=
  match elapsedRes with
  | .error e =>
    if e.name = "AbortError" then .ok ⟨false, false, 0⟩ else .error e
  | .ok _ =>
    match clearRes with
    | .error e =>
      if e.name = "AbortError" then .ok ⟨true, false, 0⟩ else .error e
    | .ok _ => .ok ⟨true, true, 0⟩

/-- C7: if the pending delay is aborted before it elapses (so the
suspension point fails with an `AbortError`), `clearUnread()` is never
invoked and no error is reported or re-raised; any other exception from
that suspension point is re-raised unchanged. -/
theorem abort_swallowed_others_reraised (clearRes : Except JsError Unit)
    (e : JsError) (h : e.name ≠ "AbortError") :
    clearUnreadBody (.error ⟨"AbortError"⟩) clearRes = .ok ⟨false, false, 0⟩
    ∧ clearUnreadBody (.error e) clearRes = .error e := by
  constructor
  · rfl
  · simp only [clearUnreadBody, if_neg h]

/-- Witness for C7 with a concrete non-abort error. -/
theorem abort_swallowed_others_reraised_witness :
    clearUnreadBody (.error ⟨"AbortError"⟩) (.ok ()) = .ok ⟨false, false, 0⟩
    ∧ clearUnreadBody (.error ⟨"TypeError"⟩) (.ok ()) = .error ⟨"TypeError"⟩ :=
  abort_swallowed_others_reraised (.ok ()) ⟨"TypeError"⟩ (by decide)

/-- Life-cycle events of the deferred unread-clear timer: a scheduling
call (`load()` tail or `focus()`), natural elapse followed by a successful
`clearUnread()`, natural elapse followed by a failing `clearUnread()`
(whose error is re-raised without nulling the reference), and the explicit
abort performed by `dispose()`. -/
inductive UnreadEvent where
  | schedule
  | elapseClearOk
  | elapseClearFail
  | abortTimer
deriving DecidableEq, Repr

/-- The unread-clear timer state of a room view-model: whether
`this._clearUnreadTimout` is non-null, and how many created timeouts are
currently outstanding (created and neither elapsed nor aborted). -/
structure UnreadState where
  refSet : Bool
  liveTimers : Nat
deriving DecidableEq, Repr

/-- One step of the unread-clear timer life cycle, translated from
`_clearUnreadAfterDelay` (guard on lines 98-100, creation on line 101,
nulling on line 105) and `dispose` (abort and nulling on lines 123-126).
Elapse events are no-ops when no timer is outstanding. -/
def unreadStep (isArchived : Bool) (st : UnreadState) : UnreadEvent → UnreadState
  | .schedule =>
    if isArchived || st.refSet then st else ⟨true, st.liveTimers + 1⟩
  | .elapseClearOk =>
    if st.liveTimers > 0 then ⟨false, st.liveTimers - 1⟩ else st
  | .elapseClearFail =>
    if st.liveTimers > 0 then ⟨st.refSet, st.liveTimers - 1⟩ else st
  | .abortTimer =>
    if st.refSet then ⟨false, st.liveTimers - 1⟩ else st

/-- The unread-clear timer state after a sequence of events, starting with
no reference and no outstanding timeout. -/
def runUnread (isArchived : Bool) (es : List UnreadEvent) : UnreadState :=
  es.foldl (unreadStep isArchived) ⟨false, 0⟩

/-- The invariant of the timer life cycle: never more than one outstanding
timeout, and an outstanding timeout implies the reference is set. -/
def UnreadInv (st : UnreadState) : Prop :=
  st.liveTimers ≤ 1 ∧ (st.liveTimers = 1 → st.refSet = true)

theorem unreadStep_inv (isArchived : Bool) (st : UnreadState) (ev : UnreadEvent)
    (h : UnreadInv st) : UnreadInv (unreadStep isArchived st ev) := by
  obtain ⟨h1, h2⟩ := h
  cases ev with
  | schedule =>
    by_cases hg : isArchived || st.refSet
    · simpa [unreadStep, hg] using ⟨h1, h2⟩
    · have hrs : st.refSet = false := by
        cases hh : st.refSet
        · rfl
        · rw [hh] at hg
          simp at hg
      have hl : st.liveTimers = 0 := by
        rcases Nat.lt_or_ge st.liveTimers 1 with hl1 | hl1
        · exact Nat.lt_one_iff.mp hl1
        · have := h2 (Nat.le_antisymm h1 hl1)
          rw [hrs] at this
          exact absurd this (by simp)
      simp [unreadStep, hg, UnreadInv, hl]
  | elapseClearOk =>
    by_cases hg : st.liveTimers > 0
    · simp only [unreadStep, if_pos hg]
      refine ⟨Nat.le_trans (Nat.sub_le _ _) h1, ?_⟩
      intro hh
      change st.liveTimers - 1 = 1 at hh
      exfalso
      omega
    · simpa [unreadStep, hg] using ⟨h1, h2⟩
  | elapseClearFail =>
    by_cases hg : st.liveTimers > 0
    · simp only [unreadStep, if_pos hg]
      refine ⟨Nat.le_trans (Nat.sub_le _ _) h1, ?_⟩
      intro hh
      change st.liveTimers - 1 = 1 at hh
      exfalso
      omega
    · simpa [unreadStep, hg] using ⟨h1, h2⟩
  | abortTimer =>
    by_cases hg : st.refSet
    · simp only [unreadStep, if_pos hg]
      refine ⟨Nat.le_trans (Nat.sub_le _ _) h1, ?_⟩
      intro hh
      change st.liveTimers - 1 = 1 at hh
      exfalso
      omega
    · simpa [unreadStep, hg] using ⟨h1, h2⟩

theorem runUnread_inv (isArchived : Bool) (es : List UnreadEvent) :
    UnreadInv (runUnread isArchived es) := by
  suffices h : ∀ st, UnreadInv st →
      UnreadInv (es.foldl (unreadStep isArchived) st) by
    exact h ⟨false, 0⟩ ⟨by simp, by simp⟩
  induction es with
  | nil => intro st h; exact h
  | cons e rest ih =>
    intro st h
    exact ih _ (unreadStep_inv isArchived st e h)

/-- C6: at most one unread-clear timeout is outstanding at any time:
a scheduling call creates a new timeout only when the room is not archived
and no timeout reference is pending (repeated `focus()` calls while one is
pending are no-ops), the reference is nulled on natural elapse (with
successful clear) and on explicit abort, and along every event sequence the
number of outstanding timers never exceeds one. -/
theorem at_most_one_unread_timeout (isArchived : Bool) (es : List UnreadEvent)
    (st : UnreadState) (n : Nat) :
    (runUnread isArchived es).liveTimers ≤ 1
    ∧ unreadStep true st .schedule = st
    ∧ unreadStep isArchived ⟨true, n⟩ .schedule = ⟨true, n⟩
    ∧ unreadStep isArchived ⟨false, 0⟩ .schedule
        = (if isArchived then ⟨false, 0⟩ else ⟨true, 1⟩)
    ∧ (unreadStep isArchived ⟨true, 1⟩ .elapseClearOk).refSet = false
    ∧ (unreadStep isArchived ⟨true, n⟩ .abortTimer).refSet = false := by
  refine ⟨(runUnread_inv isArchived es).1, ?_, ?_, ?_, ?_, ?_⟩
  · simp [unreadStep]
  · simp [unreadStep]
  · cases isArchived <;> simp [unreadStep]
  · simp [unreadStep]
  · simp [unreadStep]

/-- Result of `load()` (lines 76-95 of `RoomViewModel.js`), given the
outcome of awaiting `this._room.openTimeline()`: on success the timeline
view-model is attached and tracked and the change emitted; on failure the
error is reported; in both cases `_clearUnreadAfterDelay()` is then
invoked on the current timer state. -/
structure LoadResult where
  timelineAttached : Bool
  timelineTracked : Bool
  errorsReported : Nat
  emittedTimelineChange : Bool
  schedState : UnreadState
deriving DecidableEq, Repr

/-- The `load()` method: the try block attaches and tracks the timeline
view-model and emits `timelineViewModel`; the catch reports the error; the
trailing `_clearUnreadAfterDelay()` runs unconditionally. -/
def load (isArchived : Bool) (openTimelineRes : Except JsError Unit)
    (st0 : UnreadState) : LoadResult :=
  match openTimelineRes with
  | .ok _ =>
    { timelineAttached := true, timelineTracked := true, errorsReported := 0,
      emittedTimelineChange := true,
      schedState := unreadStep isArchived st0 .schedule }
  | .error _ =>
    { timelineAttached := false, timelineTracked := false, errorsReported := 1,
      emittedTimelineChange := false,
      schedState := unreadStep isArchived st0 .schedule }

/-- C5: if `load()` is called on a fresh non-archived room view-model and
`openTimeline()` fails, no timeline sub-view-model is attached, exactly one
error is reported, and the deferred unread-clear is still scheduled (a
timeout is pending afterwards). -/
theorem load_failure_no_timeline (e : JsError) :
    (load false (.error e) ⟨false, 0⟩).timelineAttached = false
    ∧ (load false (.error e) ⟨false, 0⟩).errorsReported = 1
    ∧ (load false (.error e) ⟨false, 0⟩).schedState = ⟨true, 1⟩ := by
  refine ⟨rfl, rfl, ?_⟩
  simp [load, unreadStep]

/-- The child objects a room view-model can own (composer, timeline,
call sub-view-model, call-observable subscription). -/
inductive Child where
  | composer
  | timeline
  | callvm
  | subscription
deriving DecidableEq, Repr

/-- How many times each child object's dispose has run. -/
structure DisposeLog where
  composerDisposals : Nat
  timelineDisposals : Nat
  callDisposals : Nat
  subscriptionDisposals : Nat
deriving DecidableEq, Repr

/-- Record one disposal of a child. -/
def bumpChild (log : DisposeLog) : Child → DisposeLog
  | .composer => { log with composerDisposals := log.composerDisposals + 1 }
  | .timeline => { log with timelineDisposals := log.timelineDisposals + 1 }
  | .callvm => { log with callDisposals := log.callDisposals + 1 }
  | .subscription => { log with subscriptionDisposals := log.subscriptionDisposals + 1 }

/-- The tracked-children list of a room view-model as built by the source:
the constructor creates the composer view-model WITHOUT tracking it
(lines 41-46), `_setupCallViewModel` tracks the call-observable
subscription (line 59) and, when a call is picked, the call sub-view-model
(lines 65 and 72), and `load()` tracks the timeline view-model on success
(line 86). -/
def trackedChildren (hasTimeline hasCall : Bool) : List Child :=
  [Child.subscription]
    ++ (if hasCall then [Child.callvm] else [])
    ++ (if hasTimeline then [Child.timeline] else [])

/-- The state of a room view-model relevant to `dispose()`. -/
structure RoomVMState where
  isArchived : Bool
  hasTimeline : Bool
  hasCall : Bool
  clearUnreadTimoutPending : Bool
deriving DecidableEq, Repr

/-- Observable outcome of `dispose()`. -/
structure DisposeResult where
  unsubscribed : Bool
  released : Bool
  timeoutAborted : Bool
  timeoutRefAfter : Bool
  log : DisposeLog
deriving DecidableEq, Repr

/-- `dispose()` (lines 117-127 of `RoomViewModel.js`): `super.dispose()`
(modelled from spec section 4.1: disposes all still-tracked children, in
reverse tracking order, exactly once each), then `this._room.off("change",
...)`, then `this._room.release()` iff the room is archived, then abort
and null the unread-clear timeout if one is pending. -/
def disposeRoomVM (vm : RoomVMState) : DisposeResult :=
  { unsubscribed := true
    released := vm.isArchived
    timeoutAborted := vm.clearUnreadTimoutPending
    timeoutRefAfter := false
    log := ((trackedChildren vm.hasTimeline vm.hasCall).reverse).foldl
      bumpChild ⟨0, 0, 0, 0⟩ }

/-- C4 counterexample: on a concrete fully-populated room view-model
(timeline attached, call active, timeout pending), `dispose()` never
disposes the composer view-model — the constructor does not track it and
`dispose` does not touch it — contradicting the claim that the composer is
a tracked child disposed exactly once. -/
theorem dispose_composer_counterexample :
    (disposeRoomVM ⟨false, true, true, true⟩).log.composerDisposals = 0
    ∧ ¬ (disposeRoomVM ⟨false, true, true, true⟩).log.composerDisposals = 1 := by
  decide

/-- C4 (amended): for every room view-model state, `dispose()` unsubscribes
the room-change listener, calls `release()` iff the room is archived,
aborts and nulls a pending unread-clear timeout, and disposes every
tracked child exactly once — the subscription always, the timeline and
call sub-view-models when present — with no double-dispose; the composer
view-model is not tracked and is not disposed at all. -/
theorem dispose_correct (arch ht hc pend : Bool) :
    (disposeRoomVM ⟨arch, ht, hc, pend⟩).unsubscribed = true
    ∧ (disposeRoomVM ⟨arch, ht, hc, pend⟩).released = arch
    ∧ (disposeRoomVM ⟨arch, ht, hc, pend⟩).timeoutAborted = pend
    ∧ (disposeRoomVM ⟨arch, ht, hc, pend⟩).timeoutRefAfter = false
    ∧ (disposeRoomVM ⟨arch, ht, hc, pend⟩).log.subscriptionDisposals = 1
    ∧ (disposeRoomVM ⟨arch, ht, hc, pend⟩).log.timelineDisposals
        = (if ht then 1 else 0)
    ∧ (disposeRoomVM ⟨arch, ht, hc, pend⟩).log.callDisposals
        = (if hc then 1 else 0)
    ∧ (disposeRoomVM ⟨arch, ht, hc, pend⟩).log.composerDisposals = 0 := by
  cases arch <;> cases ht <;> cases hc <;> cases pend <;> decide

/-- Whitespace as removed by JavaScript's `String.prototype.trim`,
restricted to the ASCII whitespace characters. -/
def isJsSpace (c : Char) : Bool :=
  c == ' ' || c == '\t' || c == '\n' || c == '\r'

/-- JavaScript `trim()`: remove leading and trailing whitespace.  Messages
are modelled as their character sequences. -/
def trimChars (l : List Char) : List Char :=
  ((l.dropWhile isJsSpace).reverse.dropWhile isJsSpace).reverse

/-- The four-character prefix `"/me "` tested by `_sendMessage`. -/
def meMarker : List Char := ['/', 'm', 'e', ' ']

/-- JavaScript `message.startsWith("/me ")`. -/
def startsWithMe (l : List Char) : Bool := l.take 4 == meMarker

/-- A message event as sent by `_sendMessage`: whether it went through
`replyingTo.reply` or `room.sendEvent("m.room.message", ...)`, and the
msgtype/body of the content. -/
structure SentMessage where
  viaReply : Bool
  msgtype : String
  body : List Char
deriving DecidableEq, Repr

/-- Observable outcome of `_sendMessage`. -/
structure SendMsgResult where
  returned : Bool
  sendInvoked : Bool
  errorsReported : Nat
  sent : Option SentMessage
deriving DecidableEq, Repr

/-- `_sendMessage(message, replyingTo)` (lines 197-217 of
`RoomViewModel.js`): when the room is archived or the message is empty it
returns false without sending or reporting; otherwise a message starting
with `"/me "` is sent as msgtype `m.emote` with the first four characters
removed and the remainder trimmed (`message.substr(4).trim()`), any other
message as `m.text` unchanged; a throwing send (or reply) is reported and
yields false, a successful one yields true.  `sendRes` is the outcome of
the awaited send call. -/
def sendMessage (isArchived : Bool) (message : List Char) (replying : Bool)
    (sendRes : Except JsError Unit) : SendMsgResult :=
  if !isArchived && message != [] then
    let emote := startsWithMe message
    let msgtype := if emote then "m.emote" else "m.text"
    let body := if emote then trimChars (message.drop 4) else message
    match sendRes with
    | .ok _ =>
      { returned := true, sendInvoked := true, errorsReported := 0,
        sent := some ⟨replying, msgtype, body⟩ }
    | .error _ =>
      { returned := false, sendInvoked := true, errorsReported := 1, sent := none }
  else
    { returned := false, sendInvoked := false, errorsReported := 0, sent := none }

/-- C8: `_sendMessage` returns false without sending and without reporting
when the room is archived or the message is empty; when the send (or
reply) call throws, the error is reported and false is returned; otherwise
it returns true. -/
theorem send_message_error_contract (message : List Char) (replying : Bool)
    (res : Except JsError Unit) (e : JsError) (hmsg : message ≠ []) :
    sendMessage true message replying res
      = { returned := false, sendInvoked := false, errorsReported := 0, sent := none }
    ∧ sendMessage false [] replying res
      = { returned := false, sendInvoked := false, errorsReported := 0, sent := none }
    ∧ (sendMessage false message replying (.error e)).returned = false
    ∧ (sendMessage false message replying (.error e)).sendInvoked = true
    ∧ (sendMessage false message replying (.error e)).errorsReported = 1
    ∧ (sendMessage false message replying (.ok ())).returned = true
    ∧ (sendMessage false message replying (.ok ())).errorsReported = 0 := by
  have hm : (message != ([] : List Char)) = true := by simpa using hmsg
  refine ⟨by simp [sendMessage], ?_, ?_, ?_, ?_, ?_, ?_⟩
  · cases res <;> rfl
  all_goals simp [sendMessage, hm]

/-- Witness for C8 at a concrete message, error and result. -/
theorem send_message_error_contract_witness :
    sendMessage true ['h', 'i'] false (.ok ())
      = { returned := false, sendInvoked := false, errorsReported := 0, sent := none }
    ∧ sendMessage false [] false (.ok ())
      = { returned := false, sendInvoked := false, errorsReported := 0, sent := none }
    ∧ (sendMessage false ['h', 'i'] false (.error ⟨"Error"⟩)).returned = false
    ∧ (sendMessage false ['h', 'i'] false (.error ⟨"Error"⟩)).sendInvoked = true
    ∧ (sendMessage false ['h', 'i'] false (.error ⟨"Error"⟩)).errorsReported = 1
    ∧ (sendMessage false ['h', 'i'] false (.ok ())).returned = true
    ∧ (sendMessage false ['h', 'i'] false (.ok ())).errorsReported = 0 :=
  send_message_error_contract ['h', 'i'] false (.ok ()) ⟨"Error"⟩ (by decide)

/-- C10: on a non-archived room and non-empty message, a message starting
with `"/me "` is sent with msgtype `m.emote` and body equal to the message
with that prefix removed and surrounding whitespace trimmed; any other
message is sent with msgtype `m.text` and the body unchanged. -/
theorem send_message_emote_format (message : List Char) (replying : Bool)
    (hmsg : message ≠ []) :
    (startsWithMe message = true →
      (sendMessage false message replying (.ok ())).sent
        = some ⟨replying, "m.emote", trimChars (message.drop 4)⟩)
    ∧ (startsWithMe message = false →
      (sendMessage false message replying (.ok ())).sent
        = some ⟨replying, "m.text", message⟩) := by
  have hm : (message != ([] : List Char)) = true := by simpa using hmsg
  constructor
  · intro hpre
    simp [sendMessage, hm, hpre]
  · intro hpre
    simp [sendMessage, hm, hpre]

/-- Witness for C10 on a concrete emote message and a concrete plain
message. -/
theorem send_message_emote_format_witness :
    (sendMessage false ['/', 'm', 'e', ' ', 'w', 'a', 'v', 'e', 's', ' '] false
      (.ok ())).sent
      = some ⟨false, "m.emote",
          trimChars (['/', 'm', 'e', ' ', 'w', 'a', 'v', 'e', 's', ' '].drop 4)⟩
    ∧ (sendMessage false ['h', 'i'] false (.ok ())).sent
      = some ⟨false, "m.text", ['h', 'i']⟩ :=
  ⟨(send_message_emote_format ['/', 'm', 'e', ' ', 'w', 'a', 'v', 'e', 's', ' ']
      false (by decide)).1 (by decide),
   (send_message_emote_format ['h', 'i'] false (by decide)).2 (by decide)⟩

example :
    trimChars (['/', 'm', 'e', ' ', 'w', 'a', 'v', 'e', 's', ' '].drop 4)
      = ['w', 'a', 'v', 'e', 's'] := by
  decide


/-- A picked file as far as the send commands inspect it: whether its
blob's mime type starts with the prefix the command expects (`"image/"`
for pictures, `"video/"` for videos). -/
structure MediaFile where
  mimeMatches : Bool
deriving DecidableEq, Repr

/-- Observable outcome of a pick-and-send command: errors passed to
`reportError`, errors passed to `console.error`, the error propagated to
the caller if any, and the boolean success indicator returned to the
caller if any (`none` when the command returns `undefined`). -/
structure CmdOutcome where
  reported : Nat
  consoleErrors : Nat
  propagated : Option JsError
  returnedBool : Option Bool
deriving DecidableEq, Repr

/-- `_pickAndSendFile` (lines 219-229 of `RoomViewModel.js`): the try block
opens a file (returning silently when the picker is cancelled) and
delegates to `_sendFile`, whose `sendEvent` failure also lands in the
catch; the catch logs with `console.error`, not `reportError`, and the
function returns no boolean. -/
def pickAndSendFile (openFileRes : Except JsError (Option MediaFile))
    (sendRes : Except JsError Unit) : CmdOutcome :=
  match openFileRes with
  | .error _ => ⟨0, 1, none, none⟩
  | .ok none => ⟨0, 0, none, none⟩
  | .ok (some _) =>
    match sendRes with
    | .ok _ => ⟨0, 0, none, none⟩
    | .error _ => ⟨0, 1, none, none⟩

/-- `_pickAndSendVideo` (lines 241-284 of `RoomViewModel.js`): permission
check (silent return), file pick (silent return on cancel), fallback to
`_sendFile` for non-video mime types (inside the try, so its failure is
reported), video load (failures re-thrown, possibly rewrapped, into the
outer catch), settings lookup, thumbnail scaling, send; every failure is
passed to `reportError` and nothing is returned. -/
def pickAndSendVideo (perm : Bool) (openFileRes : Except JsError (Option MediaFile))
    (loadVideoRes : Except JsError Unit) (settingsRes : Except JsError Nat)
    (scaleRes : Except JsError Unit) (sendRes : Except JsError Unit) : CmdOutcome :=
  if !perm then ⟨0, 0, none, none⟩
  else
    match openFileRes with
    | .error _ => ⟨1, 0, none, none⟩
    | .ok none => ⟨0, 0, none, none⟩
    | .ok (some f) =>
      if !f.mimeMatches then
        match sendRes with
        | .ok _ => ⟨0, 0, none, none⟩
        | .error _ => ⟨1, 0, none, none⟩
      else
        match loadVideoRes with
        | .error _ => ⟨1, 0, none, none⟩
        | .ok _ =>
          match settingsRes with
          | .error _ => ⟨1, 0, none, none⟩
          | .ok _ =>
            match scaleRes with
            | .error _ => ⟨1, 0, none, none⟩
            | .ok _ =>
              match sendRes with
              | .error _ => ⟨1, 0, none, none⟩
              | .ok _ => ⟨0, 0, none, none⟩

/-- `_pickAndSendPicture` (lines 286-324 of `RoomViewModel.js`): permission
check, file pick, fallback to `_sendFile` for non-image mime types (inside
the try), image load (`loadImageRes` carries the loaded image's
`maxDimension`), settings lookup (`sentImageSizeLimit`, 0 meaning unset),
scale-down when a limit is set and exceeded, thumbnail scaling when the
(possibly scaled) dimension exceeds 600, send; every failure is passed to
`reportError` and nothing is returned. -/
def pickAndSendPicture (perm : Bool) (openFileRes : Except JsError (Option MediaFile))
    (loadImageRes : Except JsError Nat) (settingsRes : Except JsError Nat)
    (scaleRes : Except JsError Unit) (sendRes : Except JsError Unit) : CmdOutcome :=
  if !perm then ⟨0, 0, none, none⟩
  else
    match openFileRes with
    | .error _ => ⟨1, 0, none, none⟩
    | .ok none => ⟨0, 0, none, none⟩
    | .ok (some f) =>
      if !f.mimeMatches then
        match sendRes with
        | .ok _ => ⟨0, 0, none, none⟩
        | .error _ => ⟨1, 0, none, none⟩
      else
        match loadImageRes with
        | .error _ => ⟨1, 0, none, none⟩
        | .ok maxDim =>
          match settingsRes with
          | .error _ => ⟨1, 0, none, none⟩
          | .ok limit =>
            match (if limit ≠ 0 ∧ limit < maxDim then scaleRes else .ok ()) with
            | .error _ => ⟨1, 0, none, none⟩
            | .ok _ =>
              match (if 600 < (if limit ≠ 0 ∧ limit < maxDim then min maxDim limit
                  else maxDim) then scaleRes else .ok ()) with
              | .error _ => ⟨1, 0, none, none⟩
              | .ok _ =>
                match sendRes with
                | .error _ => ⟨1, 0, none, none⟩
                | .ok _ => ⟨0, 0, none, none⟩

theorem pickAndSendFile_outcome (openFileRes : Except JsError (Option MediaFile))
    (sendRes : Except JsError Unit) :
    (pickAndSendFile openFileRes sendRes).reported = 0
    ∧ (pickAndSendFile openFileRes sendRes).propagated = none
    ∧ (pickAndSendFile openFileRes sendRes).returnedBool = none := by
  cases openFileRes with
  | error e => exact ⟨rfl, rfl, rfl⟩
  | ok f =>
    cases f with
    | none => exact ⟨rfl, rfl, rfl⟩
    | some f => cases sendRes <;> exact ⟨rfl, rfl, rfl⟩

theorem pickAndSendVideo_outcome (perm : Bool)
    (openFileRes : Except JsError (Option MediaFile))
    (loadVideoRes : Except JsError Unit) (settingsRes : Except JsError Nat)
    (scaleRes : Except JsError Unit) (sendRes : Except JsError Unit) :
    (pickAndSendVideo perm openFileRes loadVideoRes settingsRes scaleRes
        sendRes).propagated = none
    ∧ (pickAndSendVideo perm openFileRes loadVideoRes settingsRes scaleRes
        sendRes).consoleErrors = 0
    ∧ (pickAndSendVideo perm openFileRes loadVideoRes settingsRes scaleRes
        sendRes).returnedBool = none := by
  unfold pickAndSendVideo
  repeat' split
  all_goals exact ⟨rfl, rfl, rfl⟩

theorem pickAndSendPicture_outcome (perm : Bool)
    (openFileRes : Except JsError (Option MediaFile))
    (loadImageRes : Except JsError Nat) (settingsRes : Except JsError Nat)
    (scaleRes : Except JsError Unit) (sendRes : Except JsError Unit) :
    (pickAndSendPicture perm openFileRes loadImageRes settingsRes scaleRes
        sendRes).propagated = none
    ∧ (pickAndSendPicture perm openFileRes loadImageRes settingsRes scaleRes
        sendRes).consoleErrors = 0
    ∧ (pickAndSendPicture perm openFileRes loadImageRes settingsRes scaleRes
        sendRes).returnedBool = none := by
  unfold pickAndSendPicture
  repeat' split
  all_goals exact ⟨rfl, rfl, rfl⟩

/-- C9 counterexample: at concrete inputs, a failing `openFile` in
`_pickAndSendFile` goes to `console.error`, not to the error-reporting
capability, and the command returns no boolean; a fully successful
`_pickAndSendVideo` and `_pickAndSendPicture` also return no boolean —
contradicting the claim that every failure in every send command is passed
to the error-reporting capability and that a boolean success indicator is
returned to the caller. -/
theorem send_commands_counterexample :
    (pickAndSendFile (.error ⟨"Error"⟩) (.ok ())).reported = 0
    ∧ (pickAndSendFile (.error ⟨"Error"⟩) (.ok ())).consoleErrors = 1
    ∧ (pickAndSendFile (.error ⟨"Error"⟩) (.ok ())).returnedBool = none
    ∧ (pickAndSendVideo true (.ok (some ⟨true⟩)) (.ok ()) (.ok 0) (.ok ())
        (.ok ())).returnedBool = none
    ∧ (pickAndSendPicture true (.ok (some ⟨true⟩)) (.ok 500) (.ok 0) (.ok ())
        (.ok ())).returnedBool = none := by
  refine ⟨rfl, rfl, rfl, rfl, rfl⟩

/-- C9 (amended): no failure in any send command propagates to the caller.
`_sendMessage` validates its preconditions, reports exactly the failures
of its send call and returns a boolean success indicator.
`_pickAndSendVideo` and `_pickAndSendPicture` pass every failure to the
error-reporting capability (never to the console) but return no boolean.
`_pickAndSendFile` catches every failure but logs it to `console.error`
instead of the error-reporting capability, and returns no boolean. -/
theorem send_commands_error_routing (perm isArch replying : Bool)
    (openFileRes : Except JsError (Option MediaFile))
    (loadVideoRes : Except JsError Unit) (loadImageRes : Except JsError Nat)
    (settingsRes : Except JsError Nat) (scaleRes : Except JsError Unit)
    (sendRes : Except JsError Unit) (message : List Char) (e : JsError) :
    (pickAndSendFile openFileRes sendRes).propagated = none
    ∧ (pickAndSendFile openFileRes sendRes).reported = 0
    ∧ (pickAndSendFile openFileRes sendRes).returnedBool = none
    ∧ (pickAndSendFile (.error e) sendRes).consoleErrors = 1
    ∧ (pickAndSendVideo perm openFileRes loadVideoRes settingsRes scaleRes
        sendRes).propagated = none
    ∧ (pickAndSendVideo perm openFileRes loadVideoRes settingsRes scaleRes
        sendRes).consoleErrors = 0
    ∧ (pickAndSendVideo perm openFileRes loadVideoRes settingsRes scaleRes
        sendRes).returnedBool = none
    ∧ (pickAndSendVideo true (.error e) loadVideoRes settingsRes scaleRes
        sendRes).reported = 1
    ∧ (pickAndSendVideo true (.ok (some ⟨true⟩)) (.error e) settingsRes scaleRes
        sendRes).reported = 1
    ∧ (pickAndSendVideo true (.ok (some ⟨true⟩)) (.ok ()) (.ok 0) (.ok ())
        (.error e)).reported = 1
    ∧ (pickAndSendPicture perm openFileRes loadImageRes settingsRes scaleRes
        sendRes).propagated = none
    ∧ (pickAndSendPicture perm openFileRes loadImageRes settingsRes scaleRes
        sendRes).consoleErrors = 0
    ∧ (pickAndSendPicture perm openFileRes loadImageRes settingsRes scaleRes
        sendRes).returnedBool = none
    ∧ (pickAndSendPicture true (.error e) loadImageRes settingsRes scaleRes
        sendRes).reported = 1
    ∧ (pickAndSendPicture true (.ok (some ⟨true⟩)) (.ok 500) (.ok 0) (.ok ())
        (.error e)).reported = 1
    ∧ (sendMessage isArch message replying (.error e)).errorsReported
        = (if !isArch && message != [] then 1 else 0)
    ∧ (sendMessage isArch message replying (.error e)).returned = false
    ∧ (sendMessage isArch message replying (.ok ())).returned
        = (!isArch && message != []) := by
  obtain ⟨hf1, hf2, hf3⟩ := pickAndSendFile_outcome openFileRes sendRes
  obtain ⟨hv1, hv2, hv3⟩ := pickAndSendVideo_outcome perm openFileRes loadVideoRes
    settingsRes scaleRes sendRes
  obtain ⟨hp1, hp2, hp3⟩ := pickAndSendPicture_outcome perm openFileRes loadImageRes
    settingsRes scaleRes sendRes
  refine ⟨hf2, hf1, hf3, ?_, hv1, hv2, hv3, ?_, ?_, ?_, hp1, hp2, hp3, ?_, ?_,
    ?_, ?_, ?_⟩
  · cases sendRes <;> rfl
  · rfl
  · rfl
  · rfl
  · rfl
  · rfl
  · by_cases h : (!isArch && message != ([] : List Char)) = true
    · simp [sendMessage, h]
    · have h2 := Bool.eq_false_iff.mpr h
      simp [sendMessage, h2]
  · by_cases h : (!isArch && message != ([] : List Char)) = true
    · simp [sendMessage, h]
    · have h2 := Bool.eq_false_iff.mpr h
      simp [sendMessage, h2]
  · by_cases h : (!isArch && message != ([] : List Char)) = true
    · simp [sendMessage, h]
    · have h2 := Bool.eq_false_iff.mpr h
      simp [sendMessage, h2]

end RoomVM
